import Mathlib

/-!
# Verification of the `environment` configuration loader

Shallow embedding of the Go package `github.com/ealoshinsky/environment`:
an `.env`-style file parser (`loadEnv`, `processValue`, `expandEnvVars`)
and a reflective struct populator (`parseEnv`, `getValueFromEnvOrFile`,
`setValue`), together with theorems about the behaviour of these
functions.

Modelling conventions:
* Go strings are Lean `String`s (processed as `List Char`);
* `map[string]string` becomes `EnvMap := String → Option String`;
* the ambient process environment (`os.LookupEnv` / `os.Getenv`) is an
  explicit parameter `osEnv : String → Option String`; `os.Getenv n`
  is `(osEnv n).getD ""` (it cannot distinguish unset from empty);
* a Go runtime panic is modelled by `Option.none` / `LoadResult.panic`;
* the library functions `time.ParseDuration` and `json.Unmarshal` are
  abstract parameters (`pd`, `ju`); `strconv.ParseInt`/`ParseBool`,
  `strings.TrimSpace` (restricted to ASCII space classes),
  `strings.NewReplacer(...).Replace`, `strings.SplitN` and the two
  regular expressions of the package are modelled concretely.
-/

namespace Environment

/-- ASCII white-space characters accepted by `strings.TrimSpace`
(the repository only ever meets ASCII input; Unicode spaces are not
modelled). -/
def isSpaceGo (c : Char) : Bool :=
  c = ' ' || c = '\t' || c = '\n' || c = '\x0b' || c = '\x0c' || c = '\r'

/-- First character of the identifier pattern `[a-zA-Z_]` used by both
`envVarRegex` and `validEnvVarRegex`. -/
def isIdentStart (c : Char) : Bool :=
  c.isAlpha || c = '_'

/-- Continuation character of the identifier pattern `[a-zA-Z0-9_]`. -/
def isIdentChar (c : Char) : Bool :=
  c.isAlpha || c.isDigit || c = '_'

/-- `validEnvVarRegex.MatchString`: the whole key matches
`^[a-zA-Z_][a-zA-Z0-9_]*$`. -/
def validName (s : String) : Bool :=
  match s.data with
  | [] => false
  | c :: cs => isIdentStart c && cs.all isIdentChar

/-- `strings.TrimSpace` on the character list. -/
def trimChars (l : List Char) : List Char :=
  ((l.dropWhile isSpaceGo).reverse.dropWhile isSpaceGo).reverse

/-- `strings.TrimSpace` on strings. -/
def trimS (s : String) : String :=
  String.mk (trimChars s.data)

/-- The resolved mapping (Go `map[string]string`): total lookup
function returning `none` for absent keys. -/
abbrev EnvMap := String → Option String

/-- The ambient process environment, as seen through `os.LookupEnv`. -/
abbrev OS := String → Option String

/-- A fresh empty map (`make(map[string]string)`). -/
def emptyMap : EnvMap := fun _ => none

/-- Map store `m[k] = v`. -/
def insertMap (k v : String) (m : EnvMap) : EnvMap :=
  fun q => if q = k then some v else m q

/-- The merge loop of `fillSpecification`:
`for k, v := range fileVars { envVars[k] = v }` — keys of the second
map win. -/
def mergeMaps (old new : EnvMap) : EnvMap :=
  fun q =>
    match new q with
    | some v => some v
    | none => old q

/-- The `strings.NewReplacer` call of `processValue`: replaces, left to
right and without rescanning its own output, the two-character escape
sequences backslash-n, backslash-t, backslash-r and
backslash-backslash. An unmatched backslash is copied verbatim. -/
def applyEscapes : List Char → List Char
  | [] => []
  | c :: rest =>
    if c = '\\' then
      match rest with
      | [] => ['\\']
      | d :: r =>
        if d = 'n' then '\n' :: applyEscapes r
        else if d = 't' then '\t' :: applyEscapes r
        else if d = 'r' then '\r' :: applyEscapes r
        else if d = '\\' then '\\' :: applyEscapes r
        else '\\' :: applyEscapes (d :: r)
    else c :: applyEscapes rest

/-- `processValue`: escape substitution followed by outer-quote
stripping.  `none` models the Go runtime panic raised by the slice
expression `value[1 : len(value)-1]` when `len(value) = 1` (reachable:
the guard compares `value[0]` with `value[len(value)-1]`, which is the
same byte for a one-character value). -/
def processValue (value : String) : Option String :=
  if value = "" then some value
  else
    match applyEscapes value.data with
    | [] => some (String.mk [])
    | c :: rest =>
      if (c = '"' || c = '\'') && (c :: rest).getLast? = some c then
        match rest with
        | [] => none
        | _ :: _ => some (String.mk ((c :: rest).drop 1).dropLast)
      else some (String.mk (c :: rest))

/-- Scanner state for `envVarRegex.ReplaceAllStringFunc`: either plain
text, or just after a dollar sign, or inside a candidate reference with
the identifier characters read so far. -/
inductive ExpSt where
  | norm : ExpSt
  | dollar : ExpSt
  | collect : List Char → ExpSt
deriving Repr, DecidableEq

/-- May `c` extend the candidate identifier `pend`? -/
def identNext (pend : List Char) (c : Char) : Bool :=
  match pend with
  | [] => isIdentStart c
  | _ :: _ => isIdentChar c

/-- Left-to-right, leftmost-match scan of
`envVarRegex = \$\x7b([a-zA-Z_][a-zA-Z0-9_]*)\x7d`, replacing every
match `m` by `repl name` (`name` the captured identifier) and leaving
everything else verbatim — the semantics of
`ReplaceAllStringFunc`.  Replacement text is not rescanned. -/
def expandAux (repl : String → String) : List Char → ExpSt → List Char
  | [], .norm => []
  | [], .dollar => ['$']
  | [], .collect pend => '$' :: '{' :: pend
  | c :: rest, .norm =>
    if c = '$' then expandAux repl rest .dollar
    else c :: expandAux repl rest .norm
  | c :: rest, .dollar =>
    if c = '{' then expandAux repl rest (.collect [])
    else if c = '$' then '$' :: expandAux repl rest .dollar
    else '$' :: c :: expandAux repl rest .norm
  | c :: rest, .collect pend =>
    if c = '}' then
      match pend with
      | [] => '$' :: '{' :: '}' :: expandAux repl rest .norm
      | _ :: _ => (repl (String.mk pend)).data ++ expandAux repl rest .norm
    else if identNext pend c then expandAux repl rest (.collect (pend ++ [c]))
    else if c = '$' then ('$' :: '{' :: pend) ++ expandAux repl rest .dollar
    else ('$' :: '{' :: pend) ++ (c :: expandAux repl rest .norm)

/-- The replacement function passed to `ReplaceAllStringFunc` inside
`expandEnvVars`: prior keys of the mapping first, then `os.LookupEnv`,
else the reference text itself. -/
def expandRepl (osEnv : OS) (envVars : EnvMap) (name : String) : String :=
  match envVars name with
  | some v => v
  | none =>
    match osEnv name with
    | some v => v
    | none => "$\x7b" ++ name ++ "\x7d"

/-- `expandEnvVars`: expand every embedded `$\x7bNAME\x7d` reference in
`value`. -/
def expandEnvVars (osEnv : OS) (value : String) (envVars : EnvMap) : String :=
  String.mk (expandAux (expandRepl osEnv envVars) value.data .norm)

/-- Errors produced by `loadEnv` (Go `error` values; the constructors
keep the data interpolated by `fmt.Errorf`). -/
inductive LoadErr where
  /-- `fmt.Errorf("%s does not exist", filename)` — the branch taken
  when `errors.Is(err, os.ErrNotExist)` holds. Carries the path. -/
  | notExist : String → LoadErr
  /-- any other `os.Open` (or scanner) error, returned as-is. -/
  | ioErr : String → LoadErr
  /-- `fmt.Errorf("invalid environment variable name: %s", key)`. -/
  | invalidName : String → LoadErr
deriving Repr, DecidableEq

/-- Result of a fallible piece of the loader; `panic` models a Go
runtime panic (which is not an `error` return). -/
inductive LoadResult (α : Type) where
  | ok : α → LoadResult α
  | err : LoadErr → LoadResult α
  | panic : LoadResult α
/-- The error of a failed load, if any. -/
def resultErr {α : Type} : LoadResult α → Option LoadErr
  | .err e => some e
  | _ => none

/-- Did the load end in a (modelled) runtime panic? -/
def resultIsPanic {α : Type} : LoadResult α → Bool
  | .panic => true
  | _ => false

/-- The mutable state of the scanning loop in `loadEnv`: the mapping
built so far, the `bytes.Buffer` of continuation text, and the
`multiline` flag. -/
structure LoadState where
  m : EnvMap
  buf : List Char
  multiline : Bool

/-- `strings.SplitN(line, "=", 2)`: split at the first `=`. `none`
models the `len(parts) != 2` case (no `=` in the line). -/
def splitFirstEq : List Char → Option (List Char × List Char)
  | [] => none
  | c :: rest =>
    if c = '=' then some ([], rest)
    else
      match splitFirstEq rest with
      | some (k, v) => some (c :: k, v)
      | none => none

/-- One iteration of the `scanner.Scan()` loop of `loadEnv` on the raw
physical line `raw`. -/
def stepLine (osEnv : OS) (st : LoadState) (raw : String) : LoadResult LoadState :=
  let line := trimChars raw.data
  if line.isEmpty || line.head? = some '#' then .ok st
  else if line.getLast? = some '\\' then
    .ok ⟨st.m, st.buf ++ line.dropLast, true⟩
  else
    let joined := if st.multiline then st.buf ++ line else line
    match splitFirstEq joined with
    | none => .ok ⟨st.m, if st.multiline then [] else st.buf, false⟩
    | some (k0, v0) =>
      let key := String.mk (trimChars k0)
      if ¬ validName key then .err (.invalidName key)
      else
        match processValue (String.mk (trimChars v0)) with
        | none => .panic
        | some pv =>
          let v := expandEnvVars osEnv pv st.m
          .ok ⟨insertMap key v st.m, if st.multiline then [] else st.buf, false⟩

/-- The whole `for scanner.Scan()` loop over the file's lines. -/
def runLines (osEnv : OS) (lines : List String) (st : LoadState) : LoadResult LoadState :=
  match lines with
  | [] => .ok st
  | l :: rest =>
    match stepLine osEnv st l with
    | .ok st2 => runLines osEnv rest st2
    | .err e => .err e
    | .panic => .panic

/-- Initial loop state: empty map, empty buffer, `multiline = false`. -/
def initState : LoadState := ⟨emptyMap, [], false⟩

/-- `loadEnv` restricted to its line-processing part: the mapping
produced from the file's physical lines. -/
def loadLines (osEnv : OS) (lines : List String) : LoadResult EnvMap :=
  match runLines osEnv lines initState with
  | .ok st => .ok st.m
  | .err e => .err e
  | .panic => .panic

/-- The outcome of `os.Open(filepath.Clean(filename))` followed by the
buffered scan: either the file's physical lines, or
`os.ErrNotExist`, or some other I/O error. -/
inductive OpenResult where
  | content : List String → OpenResult
  | notExist : OpenResult
  | openErr : String → OpenResult

/-- The file system, as seen by `loadEnv`. -/
abbrev FS := String → OpenResult

/-- `loadEnv`: open the file (distinguishing a missing file from other
failures) and scan it line by line into a mapping. -/
def loadEnv (fs : FS) (osEnv : OS) (filename : String) : LoadResult EnvMap :=
  match fs filename with
  | .notExist => .err (.notExist filename)
  | .openErr e => .err (.ioErr e)
  | .content lines => loadLines osEnv lines

/-- The loading loop of `fillSpecification`: one `loadEnv` per path,
results merged left to right with later files overriding earlier ones.
(The Go code wraps a failing load in
`fmt.Errorf("error loading .env file: %v", err)`; the underlying error
is propagated here unchanged.) -/
def loadFilesGo (fs : FS) (osEnv : OS) (paths : List String) (acc : EnvMap) : LoadResult EnvMap :=
  match paths with
  | [] => .ok acc
  | p :: rest =>
    match loadEnv fs osEnv p with
    | .ok fileVars => loadFilesGo fs osEnv rest (mergeMaps acc fileVars)
    | .err e => .err e
    | .panic => .panic

/-- The multi-file load of `fillSpecification`, starting from the
fresh `envVars` map. -/
def loadFiles (fs : FS) (osEnv : OS) (paths : List String) : LoadResult EnvMap :=
  loadFilesGo fs osEnv paths emptyMap

/-- Lookup in the map produced by a successful load (`none` when the
load failed or the key is absent). -/
def resultLookup (r : LoadResult EnvMap) (k : String) : Option String :=
  match r with
  | .ok m => m k
  | _ => none

/-- Per-field metadata: the `env`, `default` and `required` struct
tags.  An absent tag reads as `""`; `required` records the result of
the comparison `structField.Tag.Get("required") == "true"`. -/
structure Tag where
  env : String
  deflt : String
  required : Bool
deriving Repr, DecidableEq

/-- The declared kind of a scalar field, as dispatched on by
`setValue` via `field.Kind()`.  `intK w dur` is a signed integer of
width `w` bits whose concrete type is `time.Duration` iff `dur`
(the code tests `field.Type() == reflect.TypeOf(time.Duration(0))`
inside the integer case); `unsupportedK s` is any other kind, `s` the
text `field.Kind()` prints as. -/
inductive FieldKind where
  | strK : FieldKind
  | intK : Nat → Bool → FieldKind
  | boolK : FieldKind
  | sliceK : FieldKind → FieldKind
  | mapK : FieldKind
  | unsupportedK : String → FieldKind
deriving Repr, DecidableEq

/-- A populated Go field value. -/
inductive GoValue where
  | strV : String → GoValue
  | intV : Nat → Int → GoValue
  | boolV : Bool → GoValue
  | sliceV : List GoValue → GoValue
  | mapV : List (String × String) → GoValue
  | otherV : GoValue
deriving Repr

/-- The Go zero value of each field kind (what a field of a freshly
allocated struct holds when `parseEnv` skips it). -/
def zeroValue : FieldKind → GoValue
  | .strK => .strV ""
  | .intK w _ => .intV w 0
  | .boolK => .boolV false
  | .sliceK _ => .sliceV []
  | .mapK => .mapV []
  | .unsupportedK _ => .otherV

/-- `strconv.ParseInt(value, 10, 64)`: optional sign, one or more
decimal digits, result within the signed 64-bit range. -/
def parseInt64 (s : String) : Except String Int :=
  match s.data with
  | [] => .error "invalid syntax"
  | c :: cs =>
    let signDigits : Bool × List Char :=
      if c = '-' then (true, cs)
      else if c = '+' then (false, cs)
      else (false, c :: cs)
    match signDigits with
    | (neg, digits) =>
      if digits.isEmpty then .error "invalid syntax"
      else if digits.all Char.isDigit then
        let n : Nat := digits.foldl (fun a d => a * 10 + (d.toNat - 48)) 0
        let v : Int := if neg then -(n : Int) else (n : Int)
        if v < -(2 ^ 63) || 2 ^ 63 - 1 < v then .error "value out of range"
        else .ok v
      else .error "invalid syntax"

/-- `strconv.ParseBool`. -/
def parseBoolGo (s : String) : Except String Bool :=
  if s = "1" || s = "t" || s = "T" || s = "true" || s = "TRUE" || s = "True" then .ok true
  else if s = "0" || s = "f" || s = "F" || s = "false" || s = "FALSE" || s = "False" then .ok false
  else .error "invalid syntax"

/-- Two's-complement truncation of an `int64` to a `w`-bit signed
integer — the store performed by `reflect.Value.SetInt`, which casts
with `int8(x)`, `int16(x)`, … and never range-checks. -/
def truncInt (w : Nat) (v : Int) : Int :=
  (v + 2 ^ (w - 1)) % 2 ^ w - 2 ^ (w - 1)

/-- Does `v` fit in a `w`-bit signed integer? -/
def fitsWidth (w : Nat) (v : Int) : Prop :=
  -(2 ^ (w - 1)) ≤ v ∧ v < 2 ^ (w - 1)

instance (w : Nat) (v : Int) : Decidable (fitsWidth w v) :=
  inferInstanceAs (Decidable (_ ∧ _))

mutual

/-- `setValue`: convert the resolved string to the field's declared
kind.  `pd` is `time.ParseDuration` (returning the nanosecond count)
and `ju` is `json.Unmarshal` into `map[string]string`, both abstract
library collaborators. -/
def setValue (pd : String → Except String Int)
    (ju : String → Except String (List (String × String))) :
    FieldKind → String → Except String GoValue
  | .strK, v => .ok (.strV v)
  | .intK w dur, v =>
    if dur then
      match pd v with
      | .error e => .error e
      | .ok d => .ok (.intV w (truncInt w d))
    else
      match parseInt64 v with
      | .error e => .error e
      | .ok n => .ok (.intV w (truncInt w n))
  | .boolK, v =>
    match parseBoolGo v with
    | .error e => .error e
    | .ok b => .ok (.boolV b)
  | .sliceK ek, v =>
    match setValueList pd ju ek (v.splitOn ",") with
    | .error e => .error e
    | .ok vs => .ok (.sliceV vs)
  | .mapK, v =>
    match ju v with
    | .error e => .error e
    | .ok m => .ok (.mapV m)
  | .unsupportedK kindName, _ => .error ("unsupported type " ++ kindName)

/-- The element loop of the slice case of `setValue`: each element is
trimmed and converted with the element kind. -/
def setValueList (pd : String → Except String Int)
    (ju : String → Except String (List (String × String))) :
    FieldKind → List String → Except String (List GoValue)
  | _, [] => .ok []
  | ek, e :: es =>
    match setValue pd ju ek (trimS e) with
    | .error er => .error er
    | .ok v =>
      match setValueList pd ju ek es with
      | .error er => .error er
      | .ok vs => .ok (v :: vs)

end

/-- Errors produced by the struct populator. -/
inductive PErr where
  /-- `fmt.Errorf("required environment variable %s is missing", envTag)`. -/
  | missingRequired : String → PErr
  /-- `fmt.Errorf("error setting field %s: %v", structField.Name, err)`. -/
  | fieldErr : String → String → PErr
  /-- an error returned by a `CustomParser.ParseEnv` call, propagated
  verbatim. -/
  | customErr : String → PErr
deriving Repr, DecidableEq

/-- `getValueFromEnvOrFile`: file mapping first (presence test, an
empty stored value counts), then `os.Getenv` (which yields `""` for
both unset and empty variables, so the non-empty test conflates them),
then the required check, then the `default` tag. -/
def getValueFromEnvOrFile (osEnv : OS) (structField : Tag) (envVars : EnvMap) :
    Except PErr String :=
  if structField.env = "" then .ok ""
  else
    match envVars structField.env with
    | some v => .ok v
    | none =>
      let v := (osEnv structField.env).getD ""
      if v ≠ "" then .ok v
      else if structField.required then .error (.missingRequired structField.env)
      else .ok structField.deflt

/-- A field of the target record: a scalar (Go field name, tags,
declared kind), or a nested struct together with the optional
`CustomParser` capability of its pointer type. -/
inductive SField where
  | scalar : String → Tag → FieldKind → SField
  | nested : Tag → List SField → Option (String → Except String Unit) → SField

/-- The populated shape returned by the model of `parseEnv` (the Go
function mutates the struct in place; the model returns the values
assigned to a freshly zeroed struct). -/
inductive FVal where
  | scalar : GoValue → FVal
  | nested : List FVal → FVal
deriving Repr

mutual

/-- `parseEnv` over the fields of one struct, in declaration order.
Besides the populated values it returns, in order, every raw string
handed to a `CustomParser.ParseEnv` call, so that capability
invocations are observable. -/
def parseEnv (pd : String → Except String Int)
    (ju : String → Except String (List (String × String))) (osEnv : OS) :
    List SField → EnvMap → Except PErr (List FVal × List String)
  | [], _ => .ok ([], [])
  | f :: rest, envVars =>
    match parseEnvField pd ju osEnv f envVars with
    | .error e => .error e
    | .ok (v, hs1) =>
      match parseEnv pd ju osEnv rest envVars with
      | .error e => .error e
      | .ok (vs, hs2) => .ok (v :: vs, hs1 ++ hs2)

/-- The body of the field loop of `parseEnv`: nested structs recurse
first and then consult the capability; scalar fields resolve and
convert. -/
def parseEnvField (pd : String → Except String Int)
    (ju : String → Except String (List (String × String))) (osEnv : OS) :
    SField → EnvMap → Except PErr (FVal × List String)
  | .nested tag inner cap, envVars =>
    match parseEnv pd ju osEnv inner envVars with
    | .error e => .error e
    | .ok (vs, hs) =>
      match cap with
      | none => .ok (.nested vs, hs)
      | some p =>
        match getValueFromEnvOrFile osEnv tag envVars with
        | .error e => .error e
        | .ok envValue =>
          match p envValue with
          | .error e => .error (.customErr e)
          | .ok _ => .ok (.nested vs, hs ++ [envValue])
  | .scalar name tag kind, envVars =>
    match getValueFromEnvOrFile osEnv tag envVars with
    | .error e => .error e
    | .ok envValue =>
      if envValue = "" then .ok (.scalar (zeroValue kind), [])
      else
        match setValue pd ju kind envValue with
        | .error e => .error (.fieldErr name e)
        | .ok v => .ok (.scalar v, [])

end

/-- Outcome of `fillSpecification`: load the files, merge, populate. -/
inductive FillResult where
  | ok : List FVal → List String → FillResult
  | loadFailed : LoadErr → FillResult
  | parseFailed : PErr → FillResult
  | panicked : FillResult

/-- `fillSpecification`: the multi-file load followed by `parseEnv`
(the Go wrapper strings around the two error paths are dropped). -/
def fillSpecification (pd : String → Except String Int)
    (ju : String → Except String (List (String × String)))
    (fs : FS) (osEnv : OS) (cfg : List SField) (paths : List String) : FillResult :=
  match loadFiles fs osEnv paths with
  | .err e => .loadFailed e
  | .panic => .panicked
  | .ok envVars =>
    match parseEnv pd ju osEnv cfg envVars with
    | .error e => .parseFailed e
    | .ok (vs, hs) => .ok vs hs

example : processValue "\"quoted value\"" = some "quoted value" := by decide
example : processValue "'another quoted value'" = some "another quoted value" := by decide
example : processValue "escaped\\nvalue" = some "escaped\nvalue" := by decide
example : processValue "a\\\\b" = some "a\\b" := by decide
example : processValue "\"" = none := by decide
example : expandEnvVars (fun _ => none) "$\x7bX\x7dbar" (insertMap "X" "foo" emptyMap) = "foobar" := by decide
example : expandEnvVars (fun _ => none) "$\x7bY\x7d" emptyMap = "$\x7bY\x7d" := by decide
example : expandEnvVars (fun n => if n = "E" then some "ev" else none) "$\x7bE\x7d" emptyMap = "ev" := by decide
example : expandEnvVars (fun _ => none) "no vars" emptyMap = "no vars" := by decide

example : resultLookup (loadLines (fun _ => none) ["TEST_KEY=test_value", "ANOTHER_KEY=another_value"]) "TEST_KEY" = some "test_value" := by decide
example : resultLookup (loadLines (fun _ => none) ["K=a\\", "#b", "c"]) "K" = some "ac" := by decide
example : resultLookup (loadLines (fun _ => none) ["K=a\\", "b\\", "c=d"]) "K" = some "abc=d" := by decide
example : resultErr (loadLines (fun _ => none) ["1BAD=x"]) = some (.invalidName "1BAD") := by decide
example : resultLookup (loadLines (fun _ => none) ["X=foo", "K=$\x7bX\x7dbar", "Z=$\x7bY\x7d"]) "K" = some "foobar" := by decide
example : resultLookup (loadLines (fun _ => none) ["X=foo", "K=$\x7bX\x7dbar", "Z=$\x7bY\x7d"]) "Z" = some "$\x7bY\x7d" := by decide
example : resultIsPanic (loadLines (fun _ => none) ["K=\""]) = true := by decide

/-! ## Concrete collaborators used by witnesses and counterexamples -/

/-- An empty process environment. -/
def emptyOS : OS := fun _ => none

/-- A `time.ParseDuration` stand-in that recognises `"1h"` only. -/
def pdFix : String → Except String Int :=
  fun s => if s = "1h" then .ok 3600000000000 else .error "bad duration"

/-- A `json.Unmarshal` stand-in that always fails. -/
def juFail : String → Except String (List (String × String)) :=
  fun _ => .error "bad json"

/-- A `CustomParser.ParseEnv` implementation that rejects the empty
string. -/
def failOnEmpty : String → Except String Unit :=
  fun s => if s = "" then .error "empty value" else .ok ()

/-- The two-file system used by the cross-file expansion
counterexample: `one.env` defines `A`, `two.env` references it. -/
def fsTwo : FS := fun p =>
  if p = "one.env" then .content ["A=foo"]
  else if p = "two.env" then .content ["B=$\x7bA\x7d"]
  else .notExist

/-- A file system in which every path is missing. -/
def fsMissing : FS := fun _ => .notExist

/-- A file system in which every open fails with a non-not-exist
error. -/
def fsBroken : FS := fun _ => .openErr "permission denied"

/-! ## Helper lemmas -/

theorem dropWhile_of_all_neg {p : Char → Bool} {l : List Char}
    (h : ∀ c ∈ l, p c = false) : l.dropWhile p = l := by
  cases l with
  | nil => rfl
  | cons c t =>
    rw [List.dropWhile_cons, h c (List.mem_cons_self c t)]
    simp

theorem trimChars_of_all_nonspace {l : List Char}
    (h : ∀ c ∈ l, isSpaceGo c = false) : trimChars l = l := by
  unfold trimChars
  rw [dropWhile_of_all_neg h]
  rw [dropWhile_of_all_neg (fun c hc => h c (List.mem_reverse.mp hc))]
  exact l.reverse_reverse

theorem applyEscapes_of_no_backslash {l : List Char}
    (h : ∀ c ∈ l, ¬ c = '\\') : applyEscapes l = l := by
  induction l with
  | nil => rfl
  | cons c t ih =>
    rw [applyEscapes.eq_def]
    simp only [if_neg (h c (List.mem_cons_self c t))]
    rw [ih (fun d hd => h d (List.mem_cons_of_mem c hd))]

theorem splitFirstEq_append {a b : List Char} (h : '=' ∉ a) :
    splitFirstEq (a ++ '=' :: b) = some (a, b) := by
  induction a with
  | nil => simp [splitFirstEq]
  | cons c t ih =>
    have hc : ¬ c = '=' := fun hc => h (hc ▸ List.mem_cons_self c t)
    rw [List.cons_append, splitFirstEq, if_neg hc,
      ih (fun hm => h (List.mem_cons_of_mem c hm))]

theorem identStart_ne {c d : Char} (h : isIdentStart c = true)
    (hd : isIdentStart d = false) : ¬ c = d := by
  intro hc
  rw [hc, hd] at h
  cases h

theorem identChar_ne {c d : Char} (h : isIdentChar c = true)
    (hd : isIdentChar d = false) : ¬ c = d := by
  intro hc
  rw [hc, hd] at h
  cases h

theorem identStart_not_space {c : Char} (h : isIdentStart c = true) :
    isSpaceGo c = false := by
  by_contra hs
  have hs2 : isSpaceGo c = true := by
    cases h2 : isSpaceGo c with
    | true => rfl
    | false => exact absurd h2 hs
  have hor : ((((c = ' ' ∨ c = '\t') ∨ c = '\n') ∨ c = '\x0b') ∨ c = '\x0c') ∨ c = '\r' := by
    simpa [isSpaceGo] using hs2
  rcases hor with ((((h1 | h1) | h1) | h1) | h1) | h1 <;> (subst h1; exact absurd h (by decide))

theorem identChar_not_space {c : Char} (h : isIdentChar c = true) :
    isSpaceGo c = false := by
  by_contra hs
  have hs2 : isSpaceGo c = true := by
    cases h2 : isSpaceGo c with
    | true => rfl
    | false => exact absurd h2 hs
  have hor : ((((c = ' ' ∨ c = '\t') ∨ c = '\n') ∨ c = '\x0b') ∨ c = '\x0c') ∨ c = '\r' := by
    simpa [isSpaceGo] using hs2
  rcases hor with ((((h1 | h1) | h1) | h1) | h1) | h1 <;> (subst h1; exact absurd h (by decide))

/-- Destructure a valid variable name. -/
theorem validName_elim {s : String} (h : validName s = true) :
    ∃ c cs, s.data = c :: cs ∧ isIdentStart c = true ∧ ∀ x ∈ cs, isIdentChar x = true := by
  unfold validName at h
  cases hd : s.data with
  | nil => rw [hd] at h; cases h
  | cons c cs =>
    rw [hd] at h
    have h2 := Bool.and_elim_left h
    have h3 := Bool.and_elim_right h
    exact ⟨c, cs, rfl, h2, List.all_eq_true.mp h3⟩

/-- A value with no backslash and whose first character is not a quote
passes through `processValue` unchanged. -/
theorem processValue_inert {c : Char} {rest : List Char}
    (hbs : ∀ x ∈ c :: rest, ¬ x = '\\')
    (hq1 : ¬ c = '"') (hq2 : ¬ c = '\'') :
    processValue (String.mk (c :: rest)) = some (String.mk (c :: rest)) := by
  have hne : ¬ String.mk (c :: rest) = "" := by
    intro h
    have h2 := congrArg String.data h
    simp at h2
  unfold processValue
  rw [if_neg hne]
  rw [show (String.mk (c :: rest)).data = c :: rest from rfl]
  rw [applyEscapes_of_no_backslash hbs]
  simp only [hq1, hq2]
  simp

/-- Inside a candidate reference, identifier characters accumulate and
the closing brace produces the replacement. -/
theorem expandAux_collect (repl : String → String) (cs : List Char) :
    ∀ pend : List Char, pend ≠ [] → (∀ c ∈ cs, isIdentChar c = true) →
      expandAux repl (cs ++ ['}']) (.collect pend) =
        (repl (String.mk (pend ++ cs))).data := by
  induction cs with
  | nil =>
    intro pend hp _
    cases pend with
    | nil => exact absurd rfl hp
    | cons p ps =>
      have hstep : expandAux repl (([] : List Char) ++ ['}']) (.collect (p :: ps)) =
          (repl (String.mk (p :: ps))).data ++ expandAux repl [] .norm := rfl
      rw [hstep]
      simp [expandAux]
  | cons d cs2 ih =>
    intro pend hp hcs
    obtain ⟨p, ps, rfl⟩ : ∃ p ps, pend = p :: ps := by
      cases pend with
      | nil => exact absurd rfl hp
      | cons p ps => exact ⟨p, ps, rfl⟩
    have hd : isIdentChar d = true := hcs d (List.mem_cons_self d cs2)
    have hne : ¬ d = '}' := identChar_ne hd (by decide)
    have hnext : identNext (p :: ps) d = true := by simpa [identNext] using hd
    have hstep : expandAux repl ((d :: cs2) ++ ['}']) (.collect (p :: ps)) =
        if d = '}' then
          (repl (String.mk (p :: ps))).data ++ expandAux repl (cs2 ++ ['}']) .norm
        else if identNext (p :: ps) d then
          expandAux repl (cs2 ++ ['}']) (.collect ((p :: ps) ++ [d]))
        else if d = '$' then
          ('$' :: '{' :: (p :: ps)) ++ expandAux repl (cs2 ++ ['}']) .dollar
        else
          ('$' :: '{' :: (p :: ps)) ++ (d :: expandAux repl (cs2 ++ ['}']) .norm) := rfl
    rw [hstep, if_neg hne, if_pos hnext,
      ih ((p :: ps) ++ [d]) (by simp) (fun x hx => hcs x (List.mem_cons_of_mem d hx))]
    rw [List.append_assoc, List.singleton_append]

/-- A value consisting of exactly one well-formed reference expands to
exactly its replacement. -/
theorem expandAux_single_ref (repl : String → String) {c : Char} {cs : List Char}
    (hc : isIdentStart c = true) (hcs : ∀ x ∈ cs, isIdentChar x = true) :
    expandAux repl ('$' :: '{' :: ((c :: cs) ++ ['}'])) .norm =
      (repl (String.mk (c :: cs))).data := by
  have h1 : expandAux repl ('$' :: '{' :: ((c :: cs) ++ ['}'])) .norm =
      expandAux repl (c :: (cs ++ ['}'])) (.collect []) := rfl
  have h2 : expandAux repl (c :: (cs ++ ['}'])) (.collect []) =
      if c = '}' then
        '$' :: '{' :: '}' :: expandAux repl (cs ++ ['}']) .norm
      else if identNext [] c then
        expandAux repl (cs ++ ['}']) (.collect [c])
      else if c = '$' then
        ('$' :: '{' :: ([] : List Char)) ++ expandAux repl (cs ++ ['}']) .dollar
      else
        ('$' :: '{' :: ([] : List Char)) ++ (c :: expandAux repl (cs ++ ['}']) .norm) := rfl
  rw [h1, h2, if_neg (identStart_ne hc (by decide) : ¬ c = '}'),
    if_pos (show identNext [] c = true by simpa [identNext] using hc)]
  rw [expandAux_collect repl cs [c] (by simp) hcs]
  rfl

/-- `runLines` distributes over list append. -/
theorem runLines_append (osEnv : OS) (xs ys : List String) (st : LoadState) :
    runLines osEnv (xs ++ ys) st =
      match runLines osEnv xs st with
      | .ok st2 => runLines osEnv ys st2
      | .err e => .err e
      | .panic => .panic := by
  induction xs generalizing st with
  | nil => simp [runLines]
  | cons l rest ih =>
    rw [List.cons_append, runLines, runLines]
    cases stepLine osEnv st l with
    | ok st2 => exact ih st2
    | err e => rfl
    | panic => rfl

/-! ## Claims -/

/-- C6: with `X=foo` defined earlier in the same file, the value
`$\x7bX\x7dbar` resolves to `foobar`; a reference `$\x7bY\x7d` to a
name neither previously defined in the mapping nor present in the
process environment resolves to the literal reference text. -/
theorem c6_expansion_examples :
    resultLookup (loadLines emptyOS ["X=foo", "K=$\x7bX\x7dbar", "Z=$\x7bY\x7d"]) "K" =
      some "foobar" ∧
    resultLookup (loadLines emptyOS ["X=foo", "K=$\x7bX\x7dbar", "Z=$\x7bY\x7d"]) "Z" =
      some "$\x7bY\x7d" := by
  decide

/-- C7: opening a missing file yields the dedicated "does not exist"
error carrying the path, a different error value from the one produced
by any other open failure (which is passed through). -/
theorem c7_missing_file_error (fs : FS) (osEnv : OS) (path : String) :
    (fs path = .notExist → loadEnv fs osEnv path = .err (.notExist path)) ∧
    (∀ e, fs path = .openErr e → loadEnv fs osEnv path = .err (.ioErr e)) ∧
    (∀ e, ¬ LoadErr.notExist path = LoadErr.ioErr e) ∧
    (∀ k, ¬ LoadErr.notExist path = LoadErr.invalidName k) := by
  refine ⟨?_, ?_, ?_, ?_⟩
  · intro h; unfold loadEnv; rw [h]
  · intro e h; unfold loadEnv; rw [h]
  · intro e h; cases h
  · intro k h; cases h

/-- Witness for `c7_missing_file_error` at concrete file systems. -/
theorem c7_missing_file_error_witness :
    loadEnv fsMissing emptyOS "config.env" = .err (.notExist "config.env") ∧
    loadEnv fsBroken emptyOS "config.env" = .err (.ioErr "permission denied") ∧
    ¬ LoadErr.notExist "config.env" = LoadErr.ioErr "permission denied" :=
  ⟨(c7_missing_file_error fsMissing emptyOS "config.env").1 rfl,
   (c7_missing_file_error fsBroken emptyOS "config.env").2.1 "permission denied" rfl,
   (c7_missing_file_error fsMissing emptyOS "config.env").2.2.1 "permission denied"⟩

/-- C8: loading the same file twice and merging produces exactly the
mapping of a single load. -/
theorem c8_load_twice_idempotent (fs : FS) (osEnv : OS) (p : String) :
    loadFiles fs osEnv [p, p] = loadFiles fs osEnv [p] := by
  cases h : loadEnv fs osEnv p with
  | ok m =>
    simp only [loadFiles, loadFilesGo, h]
    congr 1
    funext q
    unfold mergeMaps emptyMap
    cases m q <;> rfl
  | err e => simp only [loadFiles, loadFilesGo, h]
  | panic => simp only [loadFiles, loadFilesGo, h]

/-- C9: `processValue` is not total — on the one-character values `"`
and `'` the guard `value[0] == value[len(value)-1]` compares a byte
with itself and the slice `value[1 : len(value)-1]` panics with
out-of-range bounds `[1:0]` (modelled by `none`). -/
theorem c9_process_value_panics :
    processValue "\"" = none ∧ processValue "'" = none := by decide

/-- C5: a field whose source variable resolves neither from the file
mapping nor from the process environment fails with an error naming
the source variable when required, and falls back to the `default`
tag otherwise. -/
theorem c5_required_and_default (osEnv : OS) (tag : Tag) (envVars : EnvMap)
    (henv : ¬ tag.env = "") (hfile : envVars tag.env = none)
    (hos : (osEnv tag.env).getD "" = "") :
    (tag.required = true →
      getValueFromEnvOrFile osEnv tag envVars = .error (.missingRequired tag.env)) ∧
    (tag.required = false →
      getValueFromEnvOrFile osEnv tag envVars = .ok tag.deflt) := by
  unfold getValueFromEnvOrFile
  rw [if_neg henv, hfile]
  constructor
  · intro hreq; simp [hos, hreq]
  · intro hreq; simp [hos, hreq]

/-- Witness for `c5_required_and_default`: a required field errors,
an optional one takes its default. -/
theorem c5_required_and_default_witness :
    getValueFromEnvOrFile emptyOS ⟨"REQUIRED_VAR", "", true⟩ emptyMap =
      .error (.missingRequired "REQUIRED_VAR") ∧
    getValueFromEnvOrFile emptyOS ⟨"OPTIONAL_VAR", "fallback", false⟩ emptyMap =
      .ok "fallback" :=
  ⟨(c5_required_and_default emptyOS ⟨"REQUIRED_VAR", "", true⟩ emptyMap
      (by decide) rfl rfl).1 rfl,
   (c5_required_and_default emptyOS ⟨"OPTIONAL_VAR", "fallback", false⟩ emptyMap
      (by decide) rfl rfl).2 rfl⟩

/-- A process environment in which `EMPTY_SET` is set to the empty
string. -/
def osEmptyVar : OS := fun n => if n = "EMPTY_SET" then some "" else none

/-- C10: a process-environment variable set to `""` is
indistinguishable from an unset one (resolution falls through to the
required check / default), while a file-mapping key holding `""`
counts as resolved: it suppresses the missing-required error and the
scalar field keeps its zero value with no conversion attempted. -/
theorem c10_empty_values (pd : String → Except String Int)
    (ju : String → Except String (List (String × String)))
    (osEnv : OS) (tag : Tag) (envVars : EnvMap)
    (name : String) (kind : FieldKind) (henv : ¬ tag.env = "") :
    (osEnv tag.env = some "" → envVars tag.env = none → tag.required = true →
      getValueFromEnvOrFile osEnv tag envVars = .error (.missingRequired tag.env)) ∧
    (envVars tag.env = some "" →
      getValueFromEnvOrFile osEnv tag envVars = .ok "" ∧
      parseEnvField pd ju osEnv (.scalar name tag kind) envVars =
        .ok (.scalar (zeroValue kind), [])) := by
  constructor
  · intro hos hfile hreq
    unfold getValueFromEnvOrFile
    rw [if_neg henv, hfile]
    simp [hos, hreq]
  · intro hfile
    have hval : getValueFromEnvOrFile osEnv tag envVars = .ok "" := by
      unfold getValueFromEnvOrFile
      rw [if_neg henv, hfile]
    refine ⟨hval, ?_⟩
    simp [parseEnvField, hval]

/-- Witness for `c10_empty_values` at concrete inputs. -/
theorem c10_empty_values_witness :
    getValueFromEnvOrFile osEmptyVar ⟨"EMPTY_SET", "", true⟩ emptyMap =
      .error (.missingRequired "EMPTY_SET") ∧
    getValueFromEnvOrFile emptyOS ⟨"FILE_EMPTY", "", true⟩
      (insertMap "FILE_EMPTY" "" emptyMap) = .ok "" ∧
    parseEnvField pdFix juFail emptyOS (.scalar "F" ⟨"FILE_EMPTY", "", true⟩ .strK)
      (insertMap "FILE_EMPTY" "" emptyMap) = .ok (.scalar (zeroValue .strK), []) :=
  ⟨(c10_empty_values pdFix juFail osEmptyVar ⟨"EMPTY_SET", "", true⟩ emptyMap
      "F" .strK (by decide)).1 rfl rfl rfl,
   ((c10_empty_values pdFix juFail emptyOS ⟨"FILE_EMPTY", "", true⟩
      (insertMap "FILE_EMPTY" "" emptyMap) "F" .strK (by decide)).2 rfl).1,
   ((c10_empty_values pdFix juFail emptyOS ⟨"FILE_EMPTY", "", true⟩
      (insertMap "FILE_EMPTY" "" emptyMap) "F" .strK (by decide)).2 rfl).2⟩

/-- C4 counterexample: an `int8` field populated from `"300"` does not
fail — `strconv.ParseInt(value, 10, 64)` succeeds and
`reflect.Value.SetInt` silently truncates to `44 = 300 - 256`. -/
theorem c4_counterexample :
    setValue pdFix juFail (.intK 8 false) "300" = .ok (.intV 8 44) ∧
    ¬ fitsWidth 8 300 := by
  constructor
  · simp +decide [setValue, parseInt64, truncInt]
  · decide

/-- C4 (amended): a non-duration signed-integer field is parsed at
64-bit width regardless of its declared width `w`; a parsed value
outside the `w`-bit range is stored truncated (two's complement) and
the stored value differs from the parsed one. -/
theorem c4_int64_then_truncate (pd : String → Except String Int)
    (ju : String → Except String (List (String × String)))
    (w : Nat) (s : String) (v : Int)
    (hw : 0 < w) (hp : parseInt64 s = .ok v) (hnf : ¬ fitsWidth w v) :
    setValue pd ju (.intK w false) s = .ok (.intV w (truncInt w v)) ∧
    ¬ truncInt w v = v := by
  constructor
  · simp [setValue, hp]
  · intro heq
    unfold truncInt at heq
    have h2w : (2 : Int) ^ w = 2 ^ (w - 1) * 2 := by
      rw [← pow_succ]
      congr 1
      omega
    have hge : 0 ≤ (v + 2 ^ (w - 1)) % 2 ^ w := Int.emod_nonneg _ (by positivity)
    have hlt : (v + 2 ^ (w - 1)) % 2 ^ w < 2 ^ w := Int.emod_lt_of_pos _ (by positivity)
    have hmod : (v + 2 ^ (w - 1)) % 2 ^ w = v + 2 ^ (w - 1) := by linarith
    rw [hmod] at hge hlt
    rw [h2w] at hlt
    exact hnf ⟨by linarith, by linarith⟩

/-- Witness for `c4_int64_then_truncate` at `w = 8`, `s = "300"`. -/
theorem c4_int64_then_truncate_witness :
    (0 < 8 ∧ parseInt64 "300" = .ok 300 ∧ ¬ fitsWidth 8 300) ∧
    setValue pdFix juFail (.intK 8 false) "300" = .ok (.intV 8 (truncInt 8 300)) ∧
    ¬ truncInt 8 300 = 300 :=
  ⟨⟨by decide, rfl, by decide⟩,
   c4_int64_then_truncate pdFix juFail 8 "300" 300 (by decide) rfl (by decide)⟩

/-- C3 counterexample: a comment line arriving mid-continuation is
skipped, not incorporated — the logical line is `K=ac`, not the
`K=a#commentc` the claim implies. -/
theorem c3_counterexample :
    resultLookup (loadLines emptyOS ["K=a\\", "#comment", "c"]) "K" = some "ac" ∧
    ¬ ("ac" : String) = "a#commentc" := by
  decide

/-- C3 (amended): a line that is empty after trimming, or starts with
`#` after trimming, is skipped unconditionally — even while a
continuation is being accumulated the loop state (including the
continuation buffer) is untouched, because the comment test precedes
the continuation handling. -/
theorem c3_comment_skip (osEnv : OS) (st : LoadState) (raw : String)
    (h : trimChars raw.data = [] ∨ (trimChars raw.data).head? = some '#') :
    stepLine osEnv st raw = .ok st := by
  rcases h with h | h <;> simp [stepLine, h]

/-- Witness for `c3_comment_skip`: a comment arriving while a
continuation buffer is active leaves the buffer intact. -/
theorem c3_comment_skip_witness :
    stepLine emptyOS ⟨emptyMap, ['K', '=', 'a'], true⟩ "#comment" =
      .ok ⟨emptyMap, ['K', '=', 'a'], true⟩ :=
  c3_comment_skip emptyOS ⟨emptyMap, ['K', '=', 'a'], true⟩ "#comment" (Or.inr rfl)

/-- C2 counterexample: a nested record with the capability whose
source name resolves to the empty string still has its
`ParseEnv` invoked — with `""` — so a capability that rejects the
empty string aborts the population, where the claim says it would not
be invoked at all. -/
theorem c2_counterexample :
    parseEnv pdFix juFail emptyOS [.nested ⟨"NVAL", "", false⟩ [] (some failOnEmpty)]
      emptyMap = .error (.customErr "empty value") ∧
    getValueFromEnvOrFile emptyOS ⟨"NVAL", "", false⟩ emptyMap = .ok "" := by
  constructor
  · simp +decide [parseEnv, parseEnvField, getValueFromEnvOrFile, emptyMap, emptyOS,
      failOnEmpty]
  · simp +decide [getValueFromEnvOrFile, emptyMap, emptyOS]

/-- C2 (amended): after the structural recursion into a nested record
with the capability succeeds and the field's own source-name value
resolves to `ev`, the capability is handed `ev` unconditionally —
empty or not; a capability error aborts the population with that
error, a capability success records the handed value. -/
theorem c2_capability_gets_value (pd : String → Except String Int)
    (ju : String → Except String (List (String × String)))
    (osEnv : OS) (tag : Tag) (inner : List SField)
    (cap : String → Except String Unit) (envVars : EnvMap)
    (vs : List FVal) (hs : List String) (ev : String)
    (hrec : parseEnv pd ju osEnv inner envVars = .ok (vs, hs))
    (hres : getValueFromEnvOrFile osEnv tag envVars = .ok ev) :
    (∀ e, cap ev = .error e →
      parseEnvField pd ju osEnv (.nested tag inner (some cap)) envVars =
        .error (.customErr e)) ∧
    (cap ev = .ok () →
      parseEnvField pd ju osEnv (.nested tag inner (some cap)) envVars =
        .ok (.nested vs, hs ++ [ev])) := by
  constructor
  · intro e he; simp [parseEnvField, hrec, hres, he]
  · intro hok; simp [parseEnvField, hrec, hres, hok]

/-- Witness for `c2_capability_gets_value` at a concrete nested
record. -/
theorem c2_capability_gets_value_witness :
    parseEnvField pdFix juFail emptyOS (.nested ⟨"NVAL", "", false⟩ [] (some failOnEmpty))
      (insertMap "NVAL" "set" emptyMap) = .ok (.nested [], ["set"]) :=
  (c2_capability_gets_value pdFix juFail emptyOS ⟨"NVAL", "", false⟩ [] failOnEmpty
      (insertMap "NVAL" "set" emptyMap) [] [] "set" (by simp [parseEnv]) rfl).2 rfl

/-- C1 counterexample: each file of a multi-file load expands against
its own freshly created mapping, so a reference in `two.env` to a key
defined by `one.env` is NOT substituted from the merged mapping — it
falls through to the literal reference text. -/
theorem c1_counterexample :
    resultLookup (loadFiles fsTwo emptyOS ["one.env", "two.env"]) "B" =
      some "$\x7bA\x7d" ∧
    ¬ ("$\x7bA\x7d" : String) = "foo" := by
  decide

/-- Processing the line `K=$\x7bN\x7d` (valid identifiers `K`, `N`, no
pending continuation) stores under `K` the three-way resolution
`expandRepl` of `N` against the mapping built so far. -/
theorem stepLine_ref_line (osEnv : OS) (m : EnvMap) (K N : String)
    (hK : validName K = true) (hN : validName N = true) :
    stepLine osEnv ⟨m, [], false⟩ (K ++ "=$\x7b" ++ N ++ "\x7d") =
      .ok ⟨insertMap K (expandRepl osEnv m N) m, [], false⟩ := by
  obtain ⟨kc, kcs, hKd, hK1, hK2⟩ := validName_elim hK
  obtain ⟨nc, ncs, hNd, hN1, hN2⟩ := validName_elim hN
  have hline : (K ++ "=$\x7b" ++ N ++ "\x7d").data =
      K.data ++ '=' :: '$' :: '{' :: (N.data ++ ['}']) := by
    rw [String.data_append, String.data_append, String.data_append,
      show ("=$\x7b" : String).data = ['=', '$', '{'] from rfl,
      show ("\x7d" : String).data = ['}'] from rfl]
    simp
  have hKchars : ∀ c ∈ K.data, isSpaceGo c = false ∧ ¬ c = '=' ∧ ¬ c = '\\' := by
    rw [hKd]
    intro c hc
    rcases List.mem_cons.mp hc with rfl | hc
    · exact ⟨identStart_not_space hK1, identStart_ne hK1 (by decide),
        identStart_ne hK1 (by decide)⟩
    · have hic := hK2 c hc
      exact ⟨identChar_not_space hic, identChar_ne hic (by decide),
        identChar_ne hic (by decide)⟩
  have hNchars : ∀ c ∈ N.data, isSpaceGo c = false ∧ ¬ c = '\\' := by
    rw [hNd]
    intro c hc
    rcases List.mem_cons.mp hc with rfl | hc
    · exact ⟨identStart_not_space hN1, identStart_ne hN1 (by decide)⟩
    · have hic := hN2 c hc
      exact ⟨identChar_not_space hic, identChar_ne hic (by decide)⟩
  have hvchars : ∀ x ∈ ('$' :: '{' :: (N.data ++ ['}'])),
      isSpaceGo x = false ∧ ¬ x = '\\' := by
    intro x hx
    rcases List.mem_cons.mp hx with rfl | hx
    · exact ⟨by decide, by decide⟩
    rcases List.mem_cons.mp hx with rfl | hx
    · exact ⟨by decide, by decide⟩
    rcases List.mem_append.mp hx with hx | hx
    · exact hNchars x hx
    · have hx2 := List.mem_singleton.mp hx
      subst hx2
      exact ⟨by decide, by decide⟩
  have hspace : ∀ c ∈ K.data ++ '=' :: '$' :: '{' :: (N.data ++ ['}']),
      isSpaceGo c = false := by
    intro c hc
    rcases List.mem_append.mp hc with hc | hc
    · exact (hKchars c hc).1
    rcases List.mem_cons.mp hc with rfl | hc
    · decide
    · exact (hvchars c hc).1
  have htrimL : trimChars (K.data ++ '=' :: '$' :: '{' :: (N.data ++ ['}'])) =
      K.data ++ '=' :: '$' :: '{' :: (N.data ++ ['}']) :=
    trimChars_of_all_nonspace hspace
  have hempty_head : ((K.data ++ '=' :: '$' :: '{' :: (N.data ++ ['}'])).isEmpty ||
      decide ((K.data ++ '=' :: '$' :: '{' :: (N.data ++ ['}'])).head? = some '#')) =
        false := by
    rw [hKd, List.cons_append]
    have hkc : ¬ kc = '#' := identStart_ne hK1 (by decide)
    simp [hkc]
  have hlast : (K.data ++ '=' :: '$' :: '{' :: (N.data ++ ['}'])).getLast? =
      some '}' := by
    rw [show K.data ++ '=' :: '$' :: '{' :: (N.data ++ ['}']) =
        (K.data ++ '=' :: '$' :: '{' :: N.data) ++ ['}'] by simp]
    exact List.getLast?_concat _
  have hsplit : splitFirstEq (K.data ++ '=' :: '$' :: '{' :: (N.data ++ ['}'])) =
      some (K.data, '$' :: '{' :: (N.data ++ ['}'])) :=
    splitFirstEq_append (fun hm => (hKchars '=' hm).2.1 rfl)
  have htrimK : trimChars K.data = K.data :=
    trimChars_of_all_nonspace (fun c hc => (hKchars c hc).1)
  have hmkK : String.mk K.data = K := rfl
  have htrimV : trimChars ('$' :: '{' :: (N.data ++ ['}'])) =
      '$' :: '{' :: (N.data ++ ['}']) :=
    trimChars_of_all_nonspace (fun c hc => (hvchars c hc).1)
  have hpv : processValue (String.mk ('$' :: '{' :: (N.data ++ ['}']))) =
      some (String.mk ('$' :: '{' :: (N.data ++ ['}']))) :=
    processValue_inert (fun x hx => (hvchars x hx).2) (by decide) (by decide)
  have hexp : expandEnvVars osEnv (String.mk ('$' :: '{' :: (N.data ++ ['}']))) m =
      expandRepl osEnv m N := by
    unfold expandEnvVars
    rw [show (String.mk ('$' :: '{' :: (N.data ++ ['}']))).data =
        '$' :: '{' :: (N.data ++ ['}']) from rfl]
    rw [hNd, expandAux_single_ref (expandRepl osEnv m) hN1 hN2, ← hNd]
  simp only [stepLine, hline, htrimL, hempty_head, Bool.false_eq_true, if_false,
    hlast, hsplit, htrimK, hmkK, hK, htrimV, hpv, hexp]
  norm_num
  decide

/-- C1 (amended): during a load, an embedded reference `$\x7bN\x7d` in
a value substitutes the value of `N` if `N` was defined earlier *in
the same file* (each file of a multi-file load is parsed against its
own fresh mapping), else the process environment's value for `N`,
else the literal reference text — the three cases of `expandRepl`.
Appending the line `K=$\x7bN\x7d` to a file whose earlier lines
produced mapping `m` with no pending continuation yields
`m` extended by `K ↦ expandRepl osEnv m N`. -/
theorem c1_same_file_expansion (osEnv : OS) (ls : List String) (m : EnvMap)
    (K N : String)
    (hls : runLines osEnv ls initState = .ok ⟨m, [], false⟩)
    (hK : validName K = true) (hN : validName N = true) :
    loadLines osEnv (ls ++ [K ++ "=$\x7b" ++ N ++ "\x7d"]) =
      .ok (insertMap K (expandRepl osEnv m N) m) := by
  simp only [loadLines, runLines_append, hls, runLines,
    stepLine_ref_line osEnv m K N hK hN]

/-- The mapping produced by the line `A=foo` alone. -/
def mapAfoo : EnvMap := insertMap "A" (expandEnvVars emptyOS "foo" emptyMap) emptyMap

/-- Witness for `c1_same_file_expansion`: after `A=foo`, the line
`B=$\x7bA\x7d` stores the same-file value of `A` under `B`. -/
theorem c1_same_file_expansion_witness :
    loadLines emptyOS (["A=foo"] ++ ["B=$\x7bA\x7d"]) =
      .ok (insertMap "B" (expandRepl emptyOS mapAfoo "A") mapAfoo) :=
  c1_same_file_expansion emptyOS ["A=foo"] mapAfoo "B" "A" rfl (by decide) (by decide)

end Environment
